import Mathlib

set_option maxHeartbeats 1000000

/-!
Verification development for the RustBT bencode codec (crate `bip_bencode`)
and metainfo parser (crate `bip_metainfo`, file `metainfo.rs`).

Modelling conventions:
a byte buffer is a `List Nat` (one element per byte);
machine integers are `Int` with explicit 64-bit range guards;
fallible operations return `Except`;
Rust `String` values are modelled by their UTF-8 byte lists.

The concrete decoder, encoder and the `parse` helper module of
`bip_metainfo` are not part of the provided sources (only their callers
and re-exports are), so those definitions are modelled from the
specification, as marked in their doc comments.  Definitions taken from
`metainfo.rs` follow that file and keep its names.
-/

/-- Decimal digit test for a byte (ASCII `0`..`9`, codes 48..57). -/
def isDigitByte (b : Nat) : Bool := decide (48 ≤ b ∧ b ≤ 57)

/-- Numeric value of an ASCII digit string, most significant digit first. -/
def digitsVal (ds : List Nat) : Nat := ds.foldl (fun a d => 10 * a + (d - 48)) 0

/-- Fueled decimal printer; with fuel above the value it prints the usual
    most-significant-first digit string with no leading zeros. -/
def natToDigitsFuel : Nat → Nat → List Nat
  | 0, _ => []
  | f + 1, n => if n < 10 then [48 + n] else natToDigitsFuel f (n / 10) ++ [48 + n % 10]

/-- ASCII decimal digits of a natural number, no leading zeros. -/
def natToDigits (n : Nat) : List Nat := natToDigitsFuel (n + 1) n

/-- Serialized form of a bencode integer payload: optional minus sign (byte 45)
    followed by the decimal digits of the absolute value. -/
def intToBytes (i : Int) : List Nat :=
  if i < 0 then 45 :: natToDigits i.natAbs else natToDigits i.natAbs

/-- A digit string is canonical when it is nonempty and has no leading zero;
    the single digit `0` is allowed. -/
def canonicalDigits : List Nat → Bool
  | [] => false
  | [_] => true
  | d :: _ :: _ => decide (d ≠ 48)

/-- Strict lexicographic byte-wise order on raw byte-string keys. -/
def lexLt : List Nat → List Nat → Bool
  | [], [] => false
  | [], _ :: _ => true
  | _ :: _, [] => false
  | a :: as, b :: bs => decide (a < b) || (decide (a = b) && lexLt as bs)

/-- Modelled from the spec (§3, data model of the missing codec modules of
    `bip_bencode`): a bencode node is a tagged value with exactly four
    variants.  A dictionary is an ordered mapping from raw byte-string keys
    to nodes; the decoder stores entries in input order, which under
    `enforce_sorted_keys` is strictly ascending byte-wise. -/
inductive Bencode where
  | int : Int → Bencode
  | bytes : List Nat → Bencode
  | list : List Bencode → Bencode
  | dict : List (List Nat × Bencode) → Bencode

mutual

/-- Modelled from the spec (§4.4, encoder of the missing codec modules):
    `i` + decimal + `e` for integers, length + `:` + raw bytes for strings,
    `l`/`d` wrapped bodies for containers.  Dictionary entries are emitted
    in stored order; decoded dictionaries store keys in the (ascending)
    input order and §9 forbids reordering keys beyond what decoding
    enforces. -/
def encodeBen : Bencode → List Nat
  | .int n => 105 :: (intToBytes n ++ [101])
  | .bytes bs => natToDigits bs.length ++ 58 :: bs
  | .list xs => 108 :: (encodeItems xs ++ [101])
  | .dict kvs => 100 :: (encodePairs kvs ++ [101])

/-- Concatenated encodings of the elements of a list node. -/
def encodeItems : List Bencode → List Nat
  | [] => []
  | x :: xs => encodeBen x ++ encodeItems xs

/-- Concatenated encodings of the key/value pairs of a dictionary node. -/
def encodePairs : List (List Nat × Bencode) → List Nat
  | [] => []
  | kv :: kvs => (natToDigits kv.1.length ++ 58 :: kv.1) ++ encodeBen kv.2 ++ encodePairs kvs

end

/-- Modelled from the spec (§4.7): parse error family of the bencode decoder.
    Each position-carrying variant records the byte offset reported. -/
inductive BencodeParseError where
  | BytesEmpty : BencodeParseError
  | InvalidByte : Nat → BencodeParseError
  | InvalidIntNoDelimiter : Nat → BencodeParseError
  | InvalidIntNegativeZero : Nat → BencodeParseError
  | InvalidIntZeroPadding : Nat → BencodeParseError
  | InvalidIntParseError : Nat → BencodeParseError
  | InvalidKeyOrdering : Nat → List Nat → BencodeParseError
  | InvalidKeyDuplicates : Nat → List Nat → BencodeParseError
  | InvalidLengthOverflow : Nat → BencodeParseError
  | InvalidRecursionLimitExceeded : Nat → BencodeParseError
deriving DecidableEq

/-- Modelled from the spec (§3): decode options record. -/
structure BDecodeOpt where
  enforce_sorted_keys : Bool
  max_recursion_depth : Nat
deriving DecidableEq

/-- Default decode options: sorted keys enforced, recursion depth 50. -/
def defaultOpts : BDecodeOpt := ⟨true, 50⟩

/-- Modelled from the spec (§4.2 step 2): digit span of an integer body,
    ending at the `e` delimiter.  Rejects empty digit spans, zero padding
    and a missing delimiter. -/
def parseIntDigits (s : List Nat) (pos : Nat) : Except BencodeParseError (Nat × List Nat) :=
  let ds := s.takeWhile isDigitByte
  let r := s.dropWhile isDigitByte
  if ds = [] then .error (.InvalidIntParseError pos)
  else if canonicalDigits ds then
    if r.head? = some 101 then .ok (digitsVal ds, r.tail)
    else .error (.InvalidIntNoDelimiter pos)
  else .error (.InvalidIntZeroPadding pos)

/-- Modelled from the spec (§4.2 step 2): integer body after the `i` sigil,
    with optional leading minus, `i-0e` rejected, value range that of an
    `i64`. -/
def parseIntBody (s : List Nat) (pos : Nat) : Except BencodeParseError (Int × List Nat) :=
  if s.head? = some 45 then
    match parseIntDigits s.tail (pos + 1) with
    | .error e => .error e
    | .ok (n, r) =>
      if n = 0 then .error (.InvalidIntNegativeZero pos)
      else if n ≤ 2 ^ 63 then .ok (-(n : Int), r)
      else .error (.InvalidIntParseError pos)
  else
    match parseIntDigits s pos with
    | .error e => .error e
    | .ok (n, r) =>
      if n < 2 ^ 63 then .ok ((n : Int), r)
      else .error (.InvalidIntParseError pos)

/-- Modelled from the spec (§4.2 step 3): byte string at a value or key
    position; decimal length with no leading zero (unless the length is 0),
    then `:`, then that many raw bytes, which must not exceed the remaining
    input. -/
def parseByteStr (s : List Nat) (pos : Nat) : Except BencodeParseError (List Nat × List Nat) :=
  let ds := s.takeWhile isDigitByte
  let r := s.dropWhile isDigitByte
  if ds = [] then .error (.InvalidByte pos)
  else if canonicalDigits ds then
    if r.head? = some 58 then
      if digitsVal ds ≤ r.tail.length then
        .ok (r.tail.take (digitsVal ds), r.tail.drop (digitsVal ds))
      else .error (.InvalidLengthOverflow pos)
    else .error (.InvalidByte pos)
  else .error (.InvalidByte pos)

/-- Modelled from the spec (§4.2 step 5): check of a new dictionary key
    against the previous one.  Equal adjacent keys are always rejected;
    under `enforce_sorted_keys` the new key must be strictly greater. -/
def keyCheck (opts : BDecodeOpt) (prev : Option (List Nat)) (pos : Nat) (k : List Nat) : Except BencodeParseError Unit :=
  match prev with
  | none => .ok ()
  | some pk =>
    if k = pk then .error (.InvalidKeyDuplicates pos k)
    else if opts.enforce_sorted_keys && !lexLt pk k then .error (.InvalidKeyOrdering pos k)
    else .ok ()

/-- Parsing mode of the recursive-descent decoder: a single value, the body
    of a list (values until `e`), or the body of a dictionary (key/value
    pairs until `e`, remembering the previous key).  The three mutually
    recursive procedures of the spec are combined into one fueled function
    dispatching on this mode. -/
inductive DecMode where
  | one : DecMode
  | items : DecMode
  | pairs : Option (List Nat) → DecMode

/-- Modelled from the spec (§4.2): recursive-descent decoder.  The fuel
    argument only drives termination (the top-level entry point supplies
    more fuel than any input can consume); `pos` is the byte offset used
    for error reporting and `depth` the container nesting depth.  In mode
    `.items` the result is always a `.list` node, in mode `.pairs` always a
    `.dict` node.  Equal adjacent dictionary keys are always rejected;
    under `enforce_sorted_keys` every new key must be strictly greater than
    the previous one (§4.2 step 5). -/
def decodeStep (opts : BDecodeOpt) : Nat → DecMode → List Nat → Nat → Nat → Except BencodeParseError (Bencode × List Nat)
  | 0, _, _, pos, _ => .error (.InvalidByte pos)
  | fuel + 1, .one, s, pos, depth =>
    match s with
    | [] => .error (.InvalidByte pos)
    | c :: rest =>
      if c = 105 then
        match parseIntBody rest (pos + 1) with
        | .error e => .error e
        | .ok (n, r) => .ok (.int n, r)
      else if isDigitByte c then
        match parseByteStr (c :: rest) pos with
        | .error e => .error e
        | .ok (bs, r) => .ok (.bytes bs, r)
      else if c = 108 then
        if opts.max_recursion_depth < depth + 1 then .error (.InvalidRecursionLimitExceeded pos)
        else
          match decodeStep opts fuel .items rest (pos + 1) (depth + 1) with
          | .error e => .error e
          | .ok (.list vs, r) => .ok (.list vs, r)
          | .ok (_, _) => .error (.InvalidByte pos)
      else if c = 100 then
        if opts.max_recursion_depth < depth + 1 then .error (.InvalidRecursionLimitExceeded pos)
        else
          match decodeStep opts fuel (.pairs none) rest (pos + 1) (depth + 1) with
          | .error e => .error e
          | .ok (.dict kvs, r) => .ok (.dict kvs, r)
          | .ok (_, _) => .error (.InvalidByte pos)
      else .error (.InvalidByte pos)
  | fuel + 1, .items, s, pos, depth =>
    match s with
    | [] => .error (.InvalidByte pos)
    | 101 :: r => .ok (.list [], r)
    | _ =>
      match decodeStep opts fuel .one s pos depth with
      | .error e => .error e
      | .ok (v, r1) =>
        match decodeStep opts fuel .items r1 (pos + (s.length - r1.length)) depth with
        | .error e => .error e
        | .ok (.list vs, r2) => .ok (.list (v :: vs), r2)
        | .ok (_, _) => .error (.InvalidByte pos)
  | fuel + 1, .pairs prev, s, pos, depth =>
    match s with
    | [] => .error (.InvalidByte pos)
    | 101 :: r => .ok (.dict [], r)
    | _ =>
      match parseByteStr s pos with
      | .error e => .error e
      | .ok (k, r1) =>
        match keyCheck opts prev pos k with
        | .error e => .error e
        | .ok _ =>
          match decodeStep opts fuel .one r1 (pos + (s.length - r1.length)) depth with
          | .error e => .error e
          | .ok (v, r2) =>
            match decodeStep opts fuel (.pairs (some k)) r2 (pos + (s.length - r2.length)) depth with
            | .error e => .error e
            | .ok (.dict kvs, r3) => .ok (.dict ((k, v) :: kvs), r3)
            | .ok (_, _) => .error (.InvalidByte pos)

/-- Modelled from the spec (§4.2): top-level decode.  Empty input is
    `BytesEmpty`; trailing bytes after the outermost value are rejected
    (trailing bytes are disallowed under the default configuration). -/
def decode (bytes : List Nat) (opts : BDecodeOpt) : Except BencodeParseError Bencode :=
  match bytes with
  | [] => .error .BytesEmpty
  | _ =>
    match decodeStep opts (2 * bytes.length + 2) .one bytes 0 0 with
    | .error e => .error e
    | .ok (v, rest) =>
      match rest with
      | [] => .ok v
      | _ => .error .BytesEmpty

theorem natToDigitsFuel_congr : ∀ n f1 f2, n < f1 → n < f2 →
    natToDigitsFuel f1 n = natToDigitsFuel f2 n := by
  intro n
  induction n using Nat.strong_induction_on with
  | _ n ih =>
    intro f1 f2 h1 h2
    match f1, f2 with
    | g1 + 1, g2 + 1 =>
      simp only [natToDigitsFuel]
      by_cases hn : n < 10
      · simp [hn]
      · rw [if_neg hn, if_neg hn]
        have hd : n / 10 < n := Nat.div_lt_self (by omega) (by omega)
        rw [ih (n / 10) hd g1 g2 (by omega) (by omega)]

theorem natToDigits_lt10 (n : Nat) (h : n < 10) : natToDigits n = [48 + n] := by
  simp [natToDigits, natToDigitsFuel, h]

theorem natToDigits_ge10 (n : Nat) (h : 10 ≤ n) :
    natToDigits n = natToDigits (n / 10) ++ [48 + n % 10] := by
  have h1 : natToDigits n = natToDigitsFuel (n + 1) n := rfl
  rw [h1]
  simp only [natToDigitsFuel]
  rw [if_neg (by omega)]
  have hd : n / 10 < n := Nat.div_lt_self (by omega) (by omega)
  rw [natToDigitsFuel_congr (n / 10) n (n / 10 + 1) hd (Nat.lt_succ_self _)]
  rfl

theorem digitsVal_append_one (ds : List Nat) (d : Nat) :
    digitsVal (ds ++ [d]) = 10 * digitsVal ds + (d - 48) := by
  simp [digitsVal, List.foldl_append]

theorem digitsVal_ge_one_aux (xs : List Nat) :
    ∀ a, 1 ≤ a → 1 ≤ xs.foldl (fun a d => 10 * a + (d - 48)) a := by
  induction xs with
  | nil => intro a h; simpa using h
  | cons x xs ih => intro a h; exact ih (10 * a + (x - 48)) (by omega)

theorem digitsVal_head_pos (d : Nat) (ds : List Nat) (h48 : 48 < d) :
    1 ≤ digitsVal (d :: ds) := by
  have h1 : digitsVal (d :: ds) = ds.foldl (fun a d => 10 * a + (d - 48)) (d - 48) := by
    simp [digitsVal]
  rw [h1]
  exact digitsVal_ge_one_aux ds (d - 48) (by omega)

theorem canonicalDigits_cons (x : Nat) (r : List Nat) (h : x ≠ 48) :
    canonicalDigits (x :: r) = true := by
  cases r with
  | nil => rfl
  | cons y ys => simp [canonicalDigits, h]

theorem canonicalDigits_cons_ne (x : Nat) (r : List Nat) (hr : r ≠ [])
    (h : canonicalDigits (x :: r) = true) : x ≠ 48 := by
  cases r with
  | nil => exact absurd rfl hr
  | cons y ys => simpa [canonicalDigits] using h

theorem natToDigits_digitsVal : ∀ ds : List Nat, ds ≠ [] →
    (∀ d ∈ ds, isDigitByte d = true) → canonicalDigits ds = true →
    natToDigits (digitsVal ds) = ds := by
  intro ds
  induction ds using List.reverseRecOn with
  | nil => intro h; exact absurd rfl h
  | append_singleton l d ih =>
    intro _ hdig hcan
    have hd : isDigitByte d = true := hdig d (by simp)
    have hd48 : 48 ≤ d ∧ d ≤ 57 := by simpa [isDigitByte] using hd
    cases l with
    | nil =>
      have h1 : digitsVal [d] = d - 48 := by simp [digitsVal]
      simp only [List.nil_append, h1]
      rw [natToDigits_lt10 (d - 48) (by omega)]
      congr 1
      omega
    | cons x l1 =>
      have hx : x ≠ 48 := by
        apply canonicalDigits_cons_ne x (l1 ++ [d]) (by simp)
        simpa [List.cons_append] using hcan
      have hxd : 48 ≤ x ∧ x ≤ 57 := by
        simpa [isDigitByte] using hdig x (by simp)
      have hv : 1 ≤ digitsVal (x :: l1) := digitsVal_head_pos x l1 (by omega)
      have hih : natToDigits (digitsVal (x :: l1)) = x :: l1 := by
        apply ih (by simp)
        · intro e he
          apply hdig
          simp only [List.cons_append, List.mem_cons, List.mem_append] at he ⊢
          tauto
        · exact canonicalDigits_cons x l1 hx
      rw [digitsVal_append_one (x :: l1) d]
      have hge : 10 ≤ 10 * digitsVal (x :: l1) + (d - 48) := by omega
      rw [natToDigits_ge10 _ hge]
      have hdiv : (10 * digitsVal (x :: l1) + (d - 48)) / 10 = digitsVal (x :: l1) := by
        omega
      have hmod : (10 * digitsVal (x :: l1) + (d - 48)) % 10 = d - 48 := by
        omega
      rw [hdiv, hmod, hih]
      congr 1
      · congr 1
        omega

theorem eq_cons_of_head_some {α : Type} {l : List α} {a : α} (h : l.head? = some a) :
    l = a :: l.tail := by
  cases l with
  | nil => simp at h
  | cons x xs =>
    simp only [List.head?_cons, Option.some.injEq] at h
    simp [h]

theorem parseIntDigits_rt (s : List Nat) (pos n : Nat) (r : List Nat)
    (h : parseIntDigits s pos = .ok (n, r)) : natToDigits n ++ 101 :: r = s := by
  simp only [parseIntDigits] at h
  split_ifs at h with hds hcan hhd
  simp only [Except.ok.injEq, Prod.mk.injEq] at h
  obtain ⟨hn, hr⟩ := h
  have hdig : ∀ d ∈ s.takeWhile isDigitByte, isDigitByte d = true := by
    intro d hd
    exact List.mem_takeWhile_imp hd
  have hnd : natToDigits n = s.takeWhile isDigitByte := by
    rw [← hn]
    exact natToDigits_digitsVal _ hds hdig hcan
  have hdw : s.dropWhile isDigitByte = 101 :: (s.dropWhile isDigitByte).tail :=
    eq_cons_of_head_some hhd
  rw [hnd, ← hr, ← hdw]
  exact List.takeWhile_append_dropWhile isDigitByte s

theorem parseIntBody_rt (s : List Nat) (pos : Nat) (i : Int) (r : List Nat)
    (h : parseIntBody s pos = .ok (i, r)) : intToBytes i ++ 101 :: r = s := by
  simp only [parseIntBody] at h
  split_ifs at h with hneg
  · have hs : s = 45 :: s.tail := eq_cons_of_head_some hneg
    split at h
    · exact absurd h (by simp)
    · rename_i n r1 heq
      split_ifs at h with hn0 hle
      simp only [Except.ok.injEq, Prod.mk.injEq] at h
      obtain ⟨hi, hr⟩ := h
      have hrt := parseIntDigits_rt _ _ _ _ heq
      have hib : intToBytes i = 45 :: natToDigits n := by
        rw [← hi]
        simp only [intToBytes]
        rw [if_pos (by omega)]
        congr 2
        omega
      rw [hib, ← hr]
      rw [hs]
      simp only [List.cons_append, List.cons.injEq]
      exact ⟨trivial, hrt⟩
  · split at h
    · exact absurd h (by simp)
    · rename_i n r1 heq
      split_ifs at h with hlt
      simp only [Except.ok.injEq, Prod.mk.injEq] at h
      obtain ⟨hi, hr⟩ := h
      have hrt := parseIntDigits_rt _ _ _ _ heq
      have hib : intToBytes i = natToDigits n := by
        rw [← hi]
        simp only [intToBytes]
        rw [if_neg (by omega)]
        simp
      rw [hib, ← hr]
      exact hrt

theorem parseByteStr_rt (s : List Nat) (pos : Nat) (bs r : List Nat)
    (h : parseByteStr s pos = .ok (bs, r)) :
    natToDigits bs.length ++ 58 :: (bs ++ r) = s := by
  simp only [parseByteStr] at h
  split_ifs at h with hds hcan hhd hlen
  simp only [Except.ok.injEq, Prod.mk.injEq] at h
  obtain ⟨hbs, hr⟩ := h
  have hlenbs : bs.length = digitsVal (s.takeWhile isDigitByte) := by
    rw [← hbs, List.length_take]
    exact Nat.min_eq_left hlen
  have hdig : ∀ d ∈ s.takeWhile isDigitByte, isDigitByte d = true := by
    intro d hd
    exact List.mem_takeWhile_imp hd
  have hnd : natToDigits bs.length = s.takeWhile isDigitByte := by
    rw [hlenbs]
    exact natToDigits_digitsVal _ hds hdig hcan
  have hsplit : bs ++ r = (s.dropWhile isDigitByte).tail := by
    rw [← hbs, ← hr]
    exact List.take_append_drop _ _
  have hdw : s.dropWhile isDigitByte = 58 :: (s.dropWhile isDigitByte).tail :=
    eq_cons_of_head_some hhd
  rw [hnd, hsplit, ← hdw]
  exact List.takeWhile_append_dropWhile isDigitByte s

theorem decodeStep_rt (opts : BDecodeOpt) : ∀ fuel : Nat, ∀ mode : DecMode, ∀ s : List Nat,
    ∀ pos depth : Nat, ∀ v : Bencode, ∀ r : List Nat,
    decodeStep opts fuel mode s pos depth = .ok (v, r) →
    (mode = .one → encodeBen v ++ r = s) ∧
    (mode = .items → ∃ vs, v = .list vs ∧ encodeItems vs ++ 101 :: r = s) ∧
    (∀ pk, mode = .pairs pk → ∃ kvs, v = .dict kvs ∧ encodePairs kvs ++ 101 :: r = s) := by
  intro fuel
  induction fuel with
  | zero =>
    intro mode s pos depth v r h
    simp [decodeStep] at h
  | succ f ih =>
    intro mode s pos depth v r h
    cases mode with
    | one =>
      refine ⟨fun _ => ?_, fun hc => DecMode.noConfusion hc, fun pk hc => DecMode.noConfusion hc⟩
      cases s with
      | nil => simp [decodeStep] at h
      | cons c rest =>
        simp only [decodeStep] at h
        by_cases h105 : c = 105
        · rw [if_pos h105] at h
          split at h <;> try exact Except.noConfusion h
          rename_i n r1 heq
          simp only [Except.ok.injEq, Prod.mk.injEq] at h
          obtain ⟨hv, hr⟩ := h
          subst hv
          subst hr
          subst h105
          have hrt := parseIntBody_rt _ _ _ _ heq
          simp only [encodeBen, List.cons_append, List.append_assoc, List.singleton_append,
            List.cons.injEq, true_and]
          simpa using hrt
        · rw [if_neg h105] at h
          by_cases hdig : isDigitByte c = true
          · rw [if_pos hdig] at h
            split at h <;> try exact Except.noConfusion h
            rename_i bs r1 heq
            simp only [Except.ok.injEq, Prod.mk.injEq] at h
            obtain ⟨hv, hr⟩ := h
            subst hv
            subst hr
            have hrt := parseByteStr_rt _ _ _ _ heq
            simp only [encodeBen, List.cons_append, List.append_assoc, List.singleton_append]
            simpa [List.append_assoc] using hrt
          · rw [if_neg hdig] at h
            by_cases h108 : c = 108
            · rw [if_pos h108] at h
              split at h <;> try exact Except.noConfusion h
              split at h <;> try exact Except.noConfusion h
              rename_i hdep vs r1 heq
              simp only [Except.ok.injEq, Prod.mk.injEq] at h
              obtain ⟨hv, hr⟩ := h
              subst hv
              subst hr
              subst h108
              obtain ⟨vs1, hvs1, henc⟩ :=
                (ih .items rest (pos + 1) (depth + 1) (.list vs) r1 heq).2.1 rfl
              injection hvs1 with hvs1
              subst hvs1
              simp only [encodeBen, List.cons_append, List.append_assoc, List.singleton_append,
                List.cons.injEq, true_and]
              simpa using henc
            · rw [if_neg h108] at h
              by_cases h100 : c = 100
              · rw [if_pos h100] at h
                split at h <;> try exact Except.noConfusion h
                split at h <;> try exact Except.noConfusion h
                rename_i hdep kvs r1 heq
                simp only [Except.ok.injEq, Prod.mk.injEq] at h
                obtain ⟨hv, hr⟩ := h
                subst hv
                subst hr
                subst h100
                obtain ⟨kvs1, hkvs1, henc⟩ :=
                  (ih (.pairs none) rest (pos + 1) (depth + 1) (.dict kvs) r1 heq).2.2 none rfl
                injection hkvs1 with hkvs1
                subst hkvs1
                simp only [encodeBen, List.cons_append, List.append_assoc, List.singleton_append,
                  List.cons.injEq, true_and]
                simpa using henc
              · rw [if_neg h100] at h
                exact absurd h (by simp)
    | items =>
      refine ⟨fun hc => DecMode.noConfusion hc, fun _ => ?_, fun pk hc => DecMode.noConfusion hc⟩
      simp only [decodeStep] at h
      split at h <;> try exact Except.noConfusion h
      · rename_i r0
        simp only [Except.ok.injEq, Prod.mk.injEq] at h
        obtain ⟨hv, hr⟩ := h
        exact ⟨[], hv.symm, by rw [← hr]; simp [encodeItems]⟩
      · split at h <;> try exact Except.noConfusion h
        rename_i v1 r1 heq1
        split at h <;> try exact Except.noConfusion h
        rename_i vs r2 heq2
        simp only [Except.ok.injEq, Prod.mk.injEq] at h
        obtain ⟨hv, hr⟩ := h
        have henc1 := (ih .one _ _ _ v1 r1 heq1).1 rfl
        obtain ⟨vs1, hvs1, henc2⟩ := (ih .items _ _ _ (.list vs) r2 heq2).2.1 rfl
        injection hvs1 with hvs1
        subst hvs1
        refine ⟨v1 :: vs, hv.symm, ?_⟩
        rw [← hr]
        simp only [encodeItems, List.append_assoc]
        rw [henc2, henc1]
    | pairs prev =>
      refine ⟨fun hc => DecMode.noConfusion hc, fun hc => DecMode.noConfusion hc, fun pk hc => ?_⟩
      injection hc with hpk
      subst hpk
      simp only [decodeStep] at h
      split at h <;> try exact Except.noConfusion h
      · rename_i r0
        simp only [Except.ok.injEq, Prod.mk.injEq] at h
        obtain ⟨hv, hr⟩ := h
        exact ⟨[], hv.symm, by rw [← hr]; simp [encodePairs]⟩
      · split at h <;> try exact Except.noConfusion h
        rename_i k r1 heqk
        split at h <;> try exact Except.noConfusion h
        split at h <;> try exact Except.noConfusion h
        rename_i v1 r2 heq1
        split at h <;> try exact Except.noConfusion h
        rename_i kvs r3 heq2
        simp only [Except.ok.injEq, Prod.mk.injEq] at h
        obtain ⟨hv, hr⟩ := h
        have hrtk := parseByteStr_rt _ _ _ _ heqk
        have henc1 := (ih .one _ _ _ v1 r2 heq1).1 rfl
        obtain ⟨kvs1, hkvs1, henc2⟩ := (ih (.pairs (some k)) _ _ _ (.dict kvs) r3 heq2).2.2 (some k) rfl
        injection hkvs1 with hkvs1
        subst hkvs1
        refine ⟨(k, v1) :: kvs, hv.symm, ?_⟩
        rw [← hr]
        simp only [encodePairs, List.append_assoc, List.cons_append]
        rw [henc2, henc1]
        simpa [List.append_assoc] using hrtk

theorem decode_rt (B : List Nat) (opts : BDecodeOpt) (v : Bencode)
    (h : decode B opts = .ok v) : encodeBen v = B := by
  unfold decode at h
  split at h
  · exact Except.noConfusion h
  · split at h <;> try exact Except.noConfusion h
    rename_i p heq
    obtain ⟨v1, rest⟩ := p
    split at h <;> try exact Except.noConfusion h
    · simp only [Except.ok.injEq] at h
      subst h
      have hrt := (decodeStep_rt opts _ .one B 0 0 _ [] heq).1 rfl
      simpa using hrt
    · rename_i hfalse
      exact absurd rfl hfalse
    · simp at h

/-- Continuation byte test for UTF-8 (0x80..0xBF). -/
def isUtf8Cont (b : Nat) : Bool := decide (128 ≤ b ∧ b ≤ 191)

/-- Modelled from the spec (§9 UTF-8 policy, for the missing `parse` module
    string conversions): RFC 3629 well-formedness of a byte sequence,
    rejecting overlong forms, surrogates and values above U+10FFFF. -/
def utf8Valid : List Nat → Bool
  | [] => true
  | b :: rest =>
    if b ≤ 127 then utf8Valid rest
    else if 194 ≤ b ∧ b ≤ 223 then
      match rest with
      | c1 :: r => isUtf8Cont c1 && utf8Valid r
      | [] => false
    else if b = 224 then
      match rest with
      | c1 :: c2 :: r => decide (160 ≤ c1 ∧ c1 ≤ 191) && isUtf8Cont c2 && utf8Valid r
      | _ => false
    else if 225 ≤ b ∧ b ≤ 236 then
      match rest with
      | c1 :: c2 :: r => isUtf8Cont c1 && isUtf8Cont c2 && utf8Valid r
      | _ => false
    else if b = 237 then
      match rest with
      | c1 :: c2 :: r => decide (128 ≤ c1 ∧ c1 ≤ 159) && isUtf8Cont c2 && utf8Valid r
      | _ => false
    else if 238 ≤ b ∧ b ≤ 239 then
      match rest with
      | c1 :: c2 :: r => isUtf8Cont c1 && isUtf8Cont c2 && utf8Valid r
      | _ => false
    else if b = 240 then
      match rest with
      | c1 :: c2 :: c3 :: r => decide (144 ≤ c1 ∧ c1 ≤ 191) && isUtf8Cont c2 && isUtf8Cont c3 && utf8Valid r
      | _ => false
    else if 241 ≤ b ∧ b ≤ 243 then
      match rest with
      | c1 :: c2 :: c3 :: r => isUtf8Cont c1 && isUtf8Cont c2 && isUtf8Cont c3 && utf8Valid r
      | _ => false
    else if b = 244 then
      match rest with
      | c1 :: c2 :: c3 :: r => decide (128 ≤ c1 ∧ c1 ≤ 143) && isUtf8Cont c2 && isUtf8Cont c3 && utf8Valid r
      | _ => false
    else false

/-- Error kinds of the metainfo layer used in `metainfo.rs` (spec §4.7/§7). -/
inductive ParseErrorKind where
  | CorruptData : ParseErrorKind
  | MissingData : ParseErrorKind
deriving DecidableEq

/-- Metainfo parse error: kind plus human-readable message, as built by
    `ParseError::new` in `metainfo.rs`. -/
structure ParseError where
  kind : ParseErrorKind
  msg : String
deriving DecidableEq

/-- Result type of the metainfo layer (`ParseResult` in `metainfo.rs`). -/
abbrev ParseResult (α : Type) := Except ParseError α

/-- Raw byte-key lookup in a decoded dictionary (first matching entry);
    the access surface of spec §4.5 restricted to what `metainfo.rs` uses. -/
def dictLookup : List (List Nat × Bencode) → List Nat → Option Bencode
  | [], _ => none
  | (k1, v) :: rest, k => if k1 = k then some v else dictLookup rest k

/-- Lookup returning the byte-string payload when the entry is a `.bytes`
    node (spec §4.5: read accessors return `None` on a variant mismatch). -/
def lookupBytes (d : List (List Nat × Bencode)) (k : List Nat) : Option (List Nat) :=
  match dictLookup d k with
  | some (.bytes b) => some b
  | _ => none

/-- Lookup returning the integer payload of an `.int` entry. -/
def lookupInt (d : List (List Nat × Bencode)) (k : List Nat) : Option Int :=
  match dictLookup d k with
  | some (.int n) => some n
  | _ => none

/-- Lookup returning the element list of a `.list` entry. -/
def lookupList (d : List (List Nat × Bencode)) (k : List Nat) : Option (List Bencode) :=
  match dictLookup d k with
  | some (.list l) => some l
  | _ => none

/-- Lookup returning the entry list of a `.dict` entry. -/
def lookupDict (d : List (List Nat × Bencode)) (k : List Nat) : Option (List (List Nat × Bencode)) :=
  match dictLookup d k with
  | some (.dict dd) => some dd
  | _ => none

/-- Key `"announce"` (`parse::ANNOUNCE_URL_KEY`). -/
def ANNOUNCE_URL_KEY : List Nat := [97, 110, 110, 111, 117, 110, 99, 101]

/-- Key `"comment"` (`parse::COMMENT_KEY`). -/
def COMMENT_KEY : List Nat := [99, 111, 109, 109, 101, 110, 116]

/-- Key `"created by"` (`parse::CREATED_BY_KEY`). -/
def CREATED_BY_KEY : List Nat := [99, 114, 101, 97, 116, 101, 100, 32, 98, 121]

/-- Key `"creation date"` (`parse::CREATION_DATE_KEY`). -/
def CREATION_DATE_KEY : List Nat := [99, 114, 101, 97, 116, 105, 111, 110, 32, 100, 97, 116, 101]

/-- Key `"encoding"` (`parse::ENCODING_KEY`). -/
def ENCODING_KEY : List Nat := [101, 110, 99, 111, 100, 105, 110, 103]

/-- Key `"info"` (`parse::INFO_KEY`). -/
def INFO_KEY : List Nat := [105, 110, 102, 111]

/-- Key `"piece length"` (`parse::PIECE_LENGTH_KEY`). -/
def PIECE_LENGTH_KEY : List Nat := [112, 105, 101, 99, 101, 32, 108, 101, 110, 103, 116, 104]

/-- Key `"pieces"` (`parse::PIECES_KEY`). -/
def PIECES_KEY : List Nat := [112, 105, 101, 99, 101, 115]

/-- Key `"private"` (`parse::PRIVATE_KEY`). -/
def PRIVATE_KEY : List Nat := [112, 114, 105, 118, 97, 116, 101]

/-- Key `"name"` (`parse::NAME_KEY`). -/
def NAME_KEY : List Nat := [110, 97, 109, 101]

/-- Key `"files"` (`parse::FILES_KEY`). -/
def FILES_KEY : List Nat := [102, 105, 108, 101, 115]

/-- Key `"length"` (`parse::LENGTH_KEY`). -/
def LENGTH_KEY : List Nat := [108, 101, 110, 103, 116, 104]

/-- Key `"md5sum"` (`parse::MD5SUM_KEY`). -/
def MD5SUM_KEY : List Nat := [109, 100, 53, 115, 117, 109]

/-- Key `"path"` (`parse::PATH_KEY`). -/
def PATH_KEY : List Nat := [112, 97, 116, 104]

/-- Length of a SHA-1 hash in bytes (`sha::SHA_HASH_LEN`). -/
def SHA_HASH_LEN : Nat := 20

/-- Modelled from the spec (§4.6 step 2, missing `parse::parse_root_dict`):
    the root bencode value must be a dictionary, otherwise `MissingData`. -/
def parse_root_dict (root : Bencode) : ParseResult (List (List Nat × Bencode)) :=
  match root with
  | .dict d => .ok d
  | _ => .error ⟨.MissingData, "File Root Is Not A Dictionary"⟩

/-- Modelled from the spec (§4.6 step 3, missing `parse::parse_announce_url`):
    the required `announce` byte string.  URL parsing itself is an external
    collaborator (§1) and is modelled as accepting every byte string; a
    missing or non-bytes entry fails as `MissingData("announce")`. -/
def parse_announce_url (root_dict : List (List Nat × Bencode)) : ParseResult (List Nat) :=
  match lookupBytes root_dict ANNOUNCE_URL_KEY with
  | some b => .ok b
  | none => .error ⟨.MissingData, "announce"⟩

/-- Modelled from the spec (§4.6 step 3, missing `parse::parse_comment`):
    optional UTF-8 string; absent, non-bytes or invalid UTF-8 becomes
    `None`. -/
def parse_comment (root_dict : List (List Nat × Bencode)) : Option (List Nat) :=
  match lookupBytes root_dict COMMENT_KEY with
  | some b => if utf8Valid b then some b else none
  | none => none

/-- Modelled from the spec (§4.6 step 3, missing `parse::parse_encoding`):
    optional UTF-8 string, like the comment. -/
def parse_encoding (root_dict : List (List Nat × Bencode)) : Option (List Nat) :=
  match lookupBytes root_dict ENCODING_KEY with
  | some b => if utf8Valid b then some b else none
  | none => none

/-- Modelled from the spec (§4.6 step 3, missing `parse::parse_created_by`):
    optional UTF-8 string, like the comment. -/
def parse_created_by (root_dict : List (List Nat × Bencode)) : Option (List Nat) :=
  match lookupBytes root_dict CREATED_BY_KEY with
  | some b => if utf8Valid b then some b else none
  | none => none

/-- Modelled from the spec (§4.6 step 3, missing
    `parse::parse_creation_date`): optional `i64`. -/
def parse_creation_date (root_dict : List (List Nat × Bencode)) : Option Int :=
  lookupInt root_dict CREATION_DATE_KEY

/-- Modelled from the spec (§4.6 step 4, missing `parse::parse_info_hash`):
    the SHA-1 digest of the canonical re-encoding of the required `info`
    sub-dictionary.  SHA-1 itself is an external pure function (§1), passed
    here as a parameter. -/
def parse_info_hash (sha1 : List Nat → List Nat) (root_dict : List (List Nat × Bencode)) : ParseResult (List Nat) :=
  match lookupDict root_dict INFO_KEY with
  | some d => .ok (sha1 (encodeBen (.dict d)))
  | none => .error ⟨.MissingData, "info"⟩

/-- Modelled from the spec (§4.6 step 3, missing `parse::parse_info_dict`):
    the required `info` sub-dictionary. -/
def parse_info_dict (root_dict : List (List Nat × Bencode)) : ParseResult (List (List Nat × Bencode)) :=
  match lookupDict root_dict INFO_KEY with
  | some d => .ok d
  | none => .error ⟨.MissingData, "info"⟩

/-- Modelled from the spec (§4.6 step 5, missing
    `parse::parse_piece_length`): the required `piece length` integer. -/
def parse_piece_length (info_dict : List (List Nat × Bencode)) : ParseResult Int :=
  match lookupInt info_dict PIECE_LENGTH_KEY with
  | some n => .ok n
  | none => .error ⟨.MissingData, "piece length"⟩

/-- Modelled from the spec (§3/§4.6 step 5, missing `parse::parse_private`):
    `private == 1` exactly; absent, wrong type or any other value is
    `false`. -/
def parse_private (info_dict : List (List Nat × Bencode)) : Bool :=
  match dictLookup info_dict PRIVATE_KEY with
  | some (.int n) => n == 1
  | _ => false

/-- Modelled from the spec (§4.6 step 5, missing `parse::parse_pieces`):
    the required `pieces` byte string (never validated as UTF-8, §9). -/
def parse_pieces (info_dict : List (List Nat × Bencode)) : ParseResult (List Nat) :=
  match lookupBytes info_dict PIECES_KEY with
  | some b => .ok b
  | none => .error ⟨.MissingData, "pieces"⟩

/-- Modelled from the spec (§4.6 step 5, missing `parse::parse_name`): the
    required `name` entry read as a UTF-8 string. -/
def parse_name (info_dict : List (List Nat × Bencode)) : ParseResult (List Nat) :=
  match lookupBytes info_dict NAME_KEY with
  | some b => if utf8Valid b then .ok b else .error ⟨.CorruptData, "name"⟩
  | none => .error ⟨.MissingData, "name"⟩

/-- Modelled from the spec (§4.6 step 5, missing `parse::parse_length`): the
    required `length` integer of a single-file info dictionary or of a file
    dictionary; missing key or wrong type propagates failure (§7). -/
def parse_length (dict : List (List Nat × Bencode)) : ParseResult Int :=
  match lookupInt dict LENGTH_KEY with
  | some n => .ok n
  | none => .error ⟨.MissingData, "length"⟩

/-- Modelled from the spec (§4.6 step 5, missing `parse::parse_files_list`):
    the required `files` list of a multi-file info dictionary. -/
def parse_files_list (info_dict : List (List Nat × Bencode)) : ParseResult (List Bencode) :=
  match lookupList info_dict FILES_KEY with
  | some l => .ok l
  | none => .error ⟨.MissingData, "files"⟩

/-- Modelled from the spec (§4.6 step 5, missing `parse::parse_file_dict`):
    each element of `files` must be a dictionary. -/
def parse_file_dict (ben : Bencode) : ParseResult (List (List Nat × Bencode)) :=
  match ben with
  | .dict d => .ok d
  | _ => .error ⟨.MissingData, "file dictionary"⟩

/-- Modelled from the spec (§4.6 step 5, missing `parse::parse_md5sum`):
    optional opaque byte string, not validated (§3). -/
def parse_md5sum (dict : List (List Nat × Bencode)) : Option (List Nat) :=
  lookupBytes dict MD5SUM_KEY

/-- Path separator byte `/` (the platform path separator, modelled for a
    Unix platform). -/
def PATH_SEP : Nat := 47

/-- Modelled from the spec (§4.6 path validation): a valid path component
    is non-empty valid UTF-8, not `.`, not `..`, and contains no path
    separator. -/
def validPathComponent (bs : List Nat) : Bool :=
  utf8Valid bs && decide (bs ≠ []) && decide (bs ≠ [46]) && decide (bs ≠ [46, 46]) &&
    !decide (PATH_SEP ∈ bs)

/-- Modelled from the spec (§4.6 path validation, missing
    `parse::parse_path_str`): a `path` element must be a byte string that
    is a valid path component, otherwise `CorruptData`. -/
def parse_path_str (ben : Bencode) : ParseResult (List Nat) :=
  match ben with
  | .bytes bs =>
    if validPathComponent bs then .ok bs
    else .error ⟨.CorruptData, "Invalid Path Component"⟩
  | _ => .error ⟨.CorruptData, "Invalid Path Component"⟩

/-- Modelled from the spec (§4.6 path validation, missing
    `parse::parse_path_list`): the required `path` list of a file
    dictionary; an empty `path` list is rejected. -/
def parse_path_list (file_dict : List (List Nat × Bencode)) : ParseResult (List Bencode) :=
  match lookupList file_dict PATH_KEY with
  | some [] => .error ⟨.CorruptData, "Empty Path List"⟩
  | some l => .ok l
  | none => .error ⟨.MissingData, "path"⟩

/-- Information about a single file within an InfoDictionary (struct `File`
    in `metainfo.rs`); `path` components are UTF-8 strings modelled as byte
    lists, the last being the file name. -/
structure File where
  len : Int
  path : List (List Nat)
  md5sum : Option (List Nat)
deriving DecidableEq

/-- Length of the file in bytes (`File::length`). -/
def File.length (f : File) : Int := f.len

/-- The path-component iterator of a file (`File::paths`), modelled as the
    underlying component list in order. -/
def File.paths (f : File) : List (List Nat) := f.path

/-- Information about the file(s) referenced by the torrent file (struct
    `InfoDictionary` in `metainfo.rs`).  `file_directory` is present only
    for multi-file torrents. -/
structure InfoDictionary where
  files : List File
  pieces : List (List Nat)
  piece_len : Int
  is_private : Bool
  file_directory : Option (List Nat)
deriving DecidableEq

/-- Some file directory if this is a multi-file torrent, otherwise `none`
    (`InfoDictionary::directory`). -/
def InfoDictionary.directory (info : InfoDictionary) : Option (List Nat) :=
  info.file_directory

/-- Length in bytes of each piece (`InfoDictionary::piece_length`). -/
def InfoDictionary.piece_length (info : InfoDictionary) : Int := info.piece_len

/-- The piece-hash iterator (`InfoDictionary::pieces`), modelled as the
    underlying list of 20-byte hashes in torrent-file order. -/
def InfoDictionary.piecesList (info : InfoDictionary) : List (List Nat) := info.pieces

/-- The file iterator (`InfoDictionary::files`), modelled as the underlying
    file list in torrent-file order. -/
def InfoDictionary.filesList (info : InfoDictionary) : List File := info.files

/-- Swarm and file information of a torrent file (struct `MetainfoFile` in
    `metainfo.rs`).  The announce URL is kept as its byte string (URL
    parsing is external, §1). -/
structure MetainfoFile where
  comment : Option (List Nat)
  announce : List Nat
  encoding : Option (List Nat)
  info_hash : List Nat
  created_by : Option (List Nat)
  creation_date : Option Int
  info_dictionary : InfoDictionary
deriving DecidableEq

/-- The InfoDictionary of the metainfo file (`MetainfoFile::info`). -/
def MetainfoFile.info (m : MetainfoFile) : InfoDictionary := m.info_dictionary

/-- Fueled splitter behind `pieces.chunks(sha::SHA_HASH_LEN)`; fuel at or
    above the list length yields the usual chunking. -/
def chunksOfFuel : Nat → List Nat → List (List Nat)
  | 0, _ => []
  | _ + 1, [] => []
  | f + 1, bs => bs.take SHA_HASH_LEN :: chunksOfFuel f (bs.drop SHA_HASH_LEN)

/-- The 20-byte chunks of a byte list, in order (the loop over
    `pieces.chunks(sha::SHA_HASH_LEN)` in `allocate_pieces`). -/
def pieceChunks (bs : List Nat) : List (List Nat) := chunksOfFuel bs.length bs

/-- From `metainfo.rs` (`allocate_pieces`): validates that the `pieces`
    byte length is an exact multiple of 20 and splits it into the 20-byte
    hashes, preserving order; otherwise `MissingData` with the message
    built by the source's `format!`. -/
def allocate_pieces (pieces : List Nat) : ParseResult (List (List Nat)) :=
  if pieces.length % SHA_HASH_LEN ≠ 0 then
    .error ⟨.MissingData, "Piece Hash Length Of " ++ toString pieces.length ++ " Is Invalid"⟩
  else
    .ok (pieceChunks pieces)

/-- From `metainfo.rs` (`is_multi_file_torrent`): a torrent is multi-file
    exactly when `parse_length` fails on the info dictionary. -/
def is_multi_file_torrent (info_dict : List (List Nat × Bencode)) : Bool :=
  match parse_length info_dict with
  | .error _ => true
  | .ok _ => false

/-- From `metainfo.rs` (`File::as_single_file`): a single-file `File` takes
    its length and optional md5sum from the info dictionary and its path is
    the one-element list holding the `name` entry. -/
def File.as_single_file (info_dict : List (List Nat × Bencode)) : ParseResult File :=
  match parse_length info_dict with
  | .error e => .error e
  | .ok length =>
    let md5sum := parse_md5sum info_dict
    match parse_name info_dict with
    | .error e => .error e
    | .ok name => .ok ⟨length, [name], md5sum⟩

/-- The per-component loop of `File::as_multi_file`: each `path` element
    goes through `parse_path_str` and results are collected in order. -/
def mapPaths : List Bencode → ParseResult (List (List Nat))
  | [] => .ok []
  | b :: rest =>
    match parse_path_str b with
    | .error e => .error e
    | .ok p =>
      match mapPaths rest with
      | .error e => .error e
      | .ok ps => .ok (p :: ps)

/-- From `metainfo.rs` (`File::as_multi_file`): a multi-file `File` takes
    its length and optional md5sum from the file dictionary and its path
    components from the `path` list, validated in order. -/
def File.as_multi_file (file_dict : List (List Nat × Bencode)) : ParseResult File :=
  match parse_length file_dict with
  | .error e => .error e
  | .ok length =>
    let md5sum := parse_md5sum file_dict
    match parse_path_list file_dict with
    | .error e => .error e
    | .ok path_list_bencode =>
      match mapPaths path_list_bencode with
      | .error e => .error e
      | .ok path_list => .ok ⟨length, path_list, md5sum⟩

/-- The per-file loop of `parse_from_info_dictionary`: each element of
    `files` goes through `parse_file_dict` and `File::as_multi_file`. -/
def mapFiles : List Bencode → ParseResult (List File)
  | [] => .ok []
  | b :: rest =>
    match parse_file_dict b with
    | .error e => .error e
    | .ok d =>
      match File.as_multi_file d with
      | .error e => .error e
      | .ok f =>
        match mapFiles rest with
        | .error e => .error e
        | .ok fs => .ok (f :: fs)

/-- From `metainfo.rs` (`parse_from_info_dictionary`): piece length,
    private flag and pieces are read first; then the multi-file or
    single-file shape is built depending on `is_multi_file_torrent`. -/
def parse_from_info_dictionary (info_dict : List (List Nat × Bencode)) : ParseResult InfoDictionary :=
  match parse_piece_length info_dict with
  | .error e => .error e
  | .ok piece_len =>
    let is_priv := parse_private info_dict
    match parse_pieces info_dict with
    | .error e => .error e
    | .ok pieces =>
      match allocate_pieces pieces with
      | .error e => .error e
      | .ok piece_buffers =>
        if is_multi_file_torrent info_dict then
          match parse_name info_dict with
          | .error e => .error e
          | .ok file_directory =>
            match parse_files_list info_dict with
            | .error e => .error e
            | .ok files_bencode =>
              match mapFiles files_bencode with
              | .error e => .error e
              | .ok files_list =>
                .ok ⟨files_list, piece_buffers, piece_len, is_priv, some file_directory⟩
        else
          match File.as_single_file info_dict with
          | .error e => .error e
          | .ok file => .ok ⟨[file], piece_buffers, piece_len, is_priv, none⟩

/-- From `metainfo.rs` (`parse_from_bytes`): decode the buffer (a decode
    failure becomes `CorruptData("Specified File Is Not Valid Bencode")`),
    require a root dictionary, read the root fields, compute the info hash
    and build the InfoDictionary.  SHA-1 is passed as a parameter (§1). -/
def parse_from_bytes (sha1 : List Nat → List Nat) (bytes : List Nat) : ParseResult MetainfoFile :=
  match decode bytes defaultOpts with
  | .error _ => .error ⟨.CorruptData, "Specified File Is Not Valid Bencode"⟩
  | .ok root_bencode =>
    match parse_root_dict root_bencode with
    | .error e => .error e
    | .ok root_dict =>
      match parse_announce_url root_dict with
      | .error e => .error e
      | .ok announce =>
        let opt_comment := parse_comment root_dict
        let opt_encoding := parse_encoding root_dict
        let opt_created_by := parse_created_by root_dict
        let opt_creation_date := parse_creation_date root_dict
        match parse_info_hash sha1 root_dict with
        | .error e => .error e
        | .ok info_hash =>
          match parse_info_dict root_dict with
          | .error e => .error e
          | .ok info_dict =>
            match parse_from_info_dictionary info_dict with
            | .error e => .error e
            | .ok info_dictionary =>
              .ok ⟨opt_comment, announce, opt_encoding, info_hash,
                   opt_created_by, opt_creation_date, info_dictionary⟩

/-- From `metainfo.rs` (`MetainfoFile::from_bytes`): parse a metainfo file
    from raw bytes. -/
def MetainfoFile.from_bytes (sha1 : List Nat → List Nat) (bytes : List Nat) : ParseResult MetainfoFile :=
  parse_from_bytes sha1 bytes

/-- Stand-in for the external SHA-1 collaborator (§1: assumed available as
    a pure function from bytes to a 20-byte digest), used to instantiate
    the `sha1` parameter in concrete witnesses. -/
def sha1Stub : List Nat → List Nat := fun _ => List.replicate 20 0

/-- Entries of a small single-file info dictionary, in sorted key order:
    `length` 0, `name` `"f"`, `piece length` 1, `pieces` empty. -/
def sampleInfoSingle : List (List Nat × Bencode) :=
  [(LENGTH_KEY, .int 0), (NAME_KEY, .bytes [102]),
   (PIECE_LENGTH_KEY, .int 1), (PIECES_KEY, .bytes [])]

/-- Root of the single-file sample torrent: `announce` `"udp"` plus the
    info dictionary. -/
def sampleRootSingle : Bencode :=
  .dict [(ANNOUNCE_URL_KEY, .bytes [117, 100, 112]), (INFO_KEY, .dict sampleInfoSingle)]

/-- Encoded byte buffer of the single-file sample torrent. -/
def bufSingle : List Nat := encodeBen sampleRootSingle

/-- The MetainfoFile value parsed from `bufSingle` under `sha1Stub`. -/
def mfSingle : MetainfoFile :=
  ⟨none, [117, 100, 112], none, List.replicate 20 0, none, none,
   ⟨[⟨0, [[102]], none⟩], [], 1, false, none⟩⟩


theorem parse_root_dict_ok {root : Bencode} {rd : List (List Nat × Bencode)}
    (h : parse_root_dict root = .ok rd) : root = .dict rd := by
  cases root with
  | dict d =>
    simp only [parse_root_dict, Except.ok.injEq] at h
    rw [h]
  | int n => exact Except.noConfusion h
  | bytes b => exact Except.noConfusion h
  | list l => exact Except.noConfusion h

theorem parse_info_hash_ok {sha1 : List Nat → List Nat} {rd : List (List Nat × Bencode)}
    {ihash : List Nat} (h : parse_info_hash sha1 rd = .ok ihash) :
    ∃ d, lookupDict rd INFO_KEY = some d ∧ ihash = sha1 (encodeBen (.dict d)) := by
  unfold parse_info_hash at h
  split at h <;> try exact Except.noConfusion h
  rename_i d heq
  simp only [Except.ok.injEq] at h
  exact ⟨d, heq, h.symm⟩

theorem parse_info_dict_ok {rd infod : List (List Nat × Bencode)}
    (h : parse_info_dict rd = .ok infod) : lookupDict rd INFO_KEY = some infod := by
  unfold parse_info_dict at h
  split at h <;> try exact Except.noConfusion h
  rename_i d heq
  simp only [Except.ok.injEq] at h
  rw [← h]
  exact heq

theorem parse_pieces_ok {infod : List (List Nat × Bencode)} {p : List Nat}
    (h : parse_pieces infod = .ok p) : lookupBytes infod PIECES_KEY = some p := by
  unfold parse_pieces at h
  split at h <;> try exact Except.noConfusion h
  rename_i b heq
  simp only [Except.ok.injEq] at h
  rw [← h]
  exact heq

theorem parse_length_ok_iff {d : List (List Nat × Bencode)} {n : Int} :
    parse_length d = .ok n ↔ lookupInt d LENGTH_KEY = some n := by
  unfold parse_length
  constructor
  · intro h
    split at h <;> try exact Except.noConfusion h
    rename_i m heq
    simp only [Except.ok.injEq] at h
    rw [← h]
    exact heq
  · intro h
    rw [h]

theorem parse_name_ok {infod : List (List Nat × Bencode)} {nm : List Nat}
    (h : parse_name infod = .ok nm) :
    lookupBytes infod NAME_KEY = some nm ∧ utf8Valid nm = true := by
  unfold parse_name at h
  split at h <;> try exact Except.noConfusion h
  rename_i b heq
  split_ifs at h with hu
  simp only [Except.ok.injEq] at h
  subst h
  exact ⟨heq, hu⟩

theorem parse_from_bytes_ok_inv (sha1 : List Nat → List Nat) (B : List Nat) (mf : MetainfoFile)
    (h : parse_from_bytes sha1 B = .ok mf) :
    ∃ rd infod,
      decode B defaultOpts = .ok (.dict rd) ∧
      lookupDict rd INFO_KEY = some infod ∧
      mf.info_hash = sha1 (encodeBen (.dict infod)) ∧
      parse_from_info_dictionary infod = .ok mf.info_dictionary := by
  simp only [parse_from_bytes] at h
  split at h <;> try exact Except.noConfusion h
  rename_i root heqd
  split at h <;> try exact Except.noConfusion h
  rename_i rd heqr
  split at h <;> try exact Except.noConfusion h
  rename_i announce heqa
  split at h <;> try exact Except.noConfusion h
  rename_i ihash heqh
  split at h <;> try exact Except.noConfusion h
  rename_i infod heqi
  split at h <;> try exact Except.noConfusion h
  rename_i infoD heqpi
  simp only [Except.ok.injEq] at h
  subst h
  obtain ⟨d1, hlook1, hhash⟩ := parse_info_hash_ok heqh
  have hlook2 := parse_info_dict_ok heqi
  rw [hlook1] at hlook2
  injection hlook2 with hlook2
  subst hlook2
  refine ⟨rd, d1, ?_, hlook1, ?_, ?_⟩
  · rw [← parse_root_dict_ok heqr]
    exact heqd
  · simpa using hhash
  · simpa using heqpi

theorem parse_from_info_dictionary_ok_inv (infod : List (List Nat × Bencode))
    (info : InfoDictionary) (h : parse_from_info_dictionary infod = .ok info) :
    ∃ piece_len pieces,
      parse_piece_length infod = .ok piece_len ∧
      parse_pieces infod = .ok pieces ∧
      allocate_pieces pieces = .ok info.pieces ∧
      info.piece_len = piece_len ∧
      info.is_private = parse_private infod ∧
      ((is_multi_file_torrent infod = true ∧
        (∃ dir files_ben,
          parse_name infod = .ok dir ∧
          parse_files_list infod = .ok files_ben ∧
          mapFiles files_ben = .ok info.files ∧
          info.file_directory = some dir)) ∨
       (is_multi_file_torrent infod = false ∧
        (∃ file,
          File.as_single_file infod = .ok file ∧
          info.files = [file] ∧
          info.file_directory = none))) := by
  simp only [parse_from_info_dictionary] at h
  split at h <;> try exact Except.noConfusion h
  rename_i piece_len heqpl
  split at h <;> try exact Except.noConfusion h
  rename_i pieces heqp
  split at h <;> try exact Except.noConfusion h
  rename_i piece_buffers heqa
  split at h
  · rename_i hmulti
    split at h <;> try exact Except.noConfusion h
    rename_i dir heqn
    split at h <;> try exact Except.noConfusion h
    rename_i files_ben heqf
    split at h <;> try exact Except.noConfusion h
    rename_i files_list heqm
    simp only [Except.ok.injEq] at h
    subst h
    exact ⟨piece_len, pieces, heqpl, heqp, heqa, rfl, rfl,
      Or.inl ⟨hmulti, dir, files_ben, heqn, heqf, heqm, rfl⟩⟩
  · rename_i hsingle
    split at h <;> try exact Except.noConfusion h
    rename_i file heqs
    simp only [Except.ok.injEq] at h
    subst h
    exact ⟨piece_len, pieces, heqpl, heqp, heqa, rfl, rfl,
      Or.inr ⟨by simpa using hsingle, file, heqs, rfl, rfl⟩⟩

theorem chunksOfFuel_nilInput : ∀ f, chunksOfFuel f [] = [] := by
  intro f
  cases f <;> rfl

theorem chunksOfFuel_congr : ∀ (n : Nat) (bs : List Nat) (f1 f2 : Nat),
    bs.length ≤ f1 → bs.length ≤ f2 → bs.length ≤ n →
    chunksOfFuel f1 bs = chunksOfFuel f2 bs := by
  intro n
  induction n with
  | zero =>
    intro bs f1 f2 _ _ h0
    have hbs : bs = [] := List.eq_nil_of_length_eq_zero (by omega)
    subst hbs
    rw [chunksOfFuel_nilInput, chunksOfFuel_nilInput]
  | succ m ih =>
    intro bs f1 f2 h1 h2 hn
    cases bs with
    | nil => rw [chunksOfFuel_nilInput, chunksOfFuel_nilInput]
    | cons b bs1 =>
      match f1, f2 with
      | g1 + 1, g2 + 1 =>
        simp only [chunksOfFuel]
        congr 1
        apply ih
        · simp only [List.length_drop, List.length_cons, SHA_HASH_LEN]
          simp only [List.length_cons] at h1
          omega
        · simp only [List.length_drop, List.length_cons, SHA_HASH_LEN]
          simp only [List.length_cons] at h2
          omega
        · simp only [List.length_drop, List.length_cons, SHA_HASH_LEN]
          simp only [List.length_cons] at hn
          omega

theorem pieceChunks_cons (bs : List Nat) (h : bs ≠ []) :
    pieceChunks bs = bs.take SHA_HASH_LEN :: pieceChunks (bs.drop SHA_HASH_LEN) := by
  unfold pieceChunks
  cases bs with
  | nil => exact absurd rfl h
  | cons b bs1 =>
    simp only [List.length_cons, chunksOfFuel]
    congr 1
    apply chunksOfFuel_congr ((b :: bs1).drop SHA_HASH_LEN).length
    · simp only [List.length_drop, List.length_cons]
      have : 1 ≤ SHA_HASH_LEN := by simp [SHA_HASH_LEN]
      omega
    · exact le_rfl
    · exact le_rfl

theorem pieceChunks_length : ∀ (n : Nat) (bs : List Nat), bs.length ≤ n →
    bs.length % SHA_HASH_LEN = 0 →
    (pieceChunks bs).length = bs.length / SHA_HASH_LEN := by
  intro n
  induction n with
  | zero =>
    intro bs hle _
    have hbs : bs = [] := List.eq_nil_of_length_eq_zero (by omega)
    subst hbs
    simp [pieceChunks, chunksOfFuel]
  | succ m ih =>
    intro bs hle hmod
    by_cases hbs : bs = []
    · subst hbs
      simp [pieceChunks, chunksOfFuel]
    · have hS : SHA_HASH_LEN = 20 := rfl
      have hpos : bs.length ≠ 0 := by
        simpa using fun hz => hbs (List.eq_nil_of_length_eq_zero hz)
      have h20 : 20 ≤ bs.length := by
        rw [hS] at hmod
        omega
      rw [pieceChunks_cons bs hbs]
      rw [List.length_cons]
      rw [ih (bs.drop SHA_HASH_LEN) (by simp only [List.length_drop]; omega)
        (by simp only [List.length_drop, hS]; rw [hS] at hmod; omega)]
      simp only [List.length_drop, hS]
      rw [hS] at hmod
      omega

theorem pieceChunks_mem_length : ∀ (n : Nat) (bs : List Nat) (c : List Nat), bs.length ≤ n →
    bs.length % SHA_HASH_LEN = 0 → c ∈ pieceChunks bs → c.length = SHA_HASH_LEN := by
  intro n
  induction n with
  | zero =>
    intro bs c hle _ hc
    have hbs : bs = [] := List.eq_nil_of_length_eq_zero (by omega)
    subst hbs
    simp [pieceChunks, chunksOfFuel] at hc
  | succ m ih =>
    intro bs c hle hmod hc
    by_cases hbs : bs = []
    · subst hbs
      simp [pieceChunks, chunksOfFuel] at hc
    · have hS : SHA_HASH_LEN = 20 := rfl
      have hpos : bs.length ≠ 0 := by
        simpa using fun hz => hbs (List.eq_nil_of_length_eq_zero hz)
      have h20 : 20 ≤ bs.length := by
        rw [hS] at hmod
        omega
      rw [pieceChunks_cons bs hbs] at hc
      rcases List.mem_cons.mp hc with hc1 | hc2
      · subst hc1
        rw [List.length_take]
        rw [hS]
        omega
      · apply ih (bs.drop SHA_HASH_LEN) c
        · simp only [List.length_drop]
          omega
        · simp only [List.length_drop, hS]
          rw [hS] at hmod
          omega
        · exact hc2

theorem pieceChunks_get : ∀ (n : Nat) (bs : List Nat) (i : Nat), bs.length ≤ n →
    bs.length % SHA_HASH_LEN = 0 → i < bs.length / SHA_HASH_LEN →
    (pieceChunks bs)[i]? = some ((bs.drop (SHA_HASH_LEN * i)).take SHA_HASH_LEN) := by
  intro n
  induction n with
  | zero =>
    intro bs i hle _ hi
    have hbs : bs = [] := List.eq_nil_of_length_eq_zero (by omega)
    subst hbs
    simp at hi
  | succ m ih =>
    intro bs i hle hmod hi
    have hS : SHA_HASH_LEN = 20 := rfl
    by_cases hbs : bs = []
    · subst hbs
      simp at hi
    · have hpos : bs.length ≠ 0 := by
        simpa using fun hz => hbs (List.eq_nil_of_length_eq_zero hz)
      have h20 : 20 ≤ bs.length := by
        rw [hS] at hmod
        omega
      rw [pieceChunks_cons bs hbs]
      cases i with
      | zero =>
        simp
      | succ j =>
        simp only [List.getElem?_cons_succ]
        rw [ih (bs.drop SHA_HASH_LEN) j (by simp only [List.length_drop]; omega)
          (by simp only [List.length_drop, hS]; rw [hS] at hmod; omega)
          (by simp only [List.length_drop, hS]; rw [hS] at hmod hi; omega)]
        rw [List.drop_drop]
        congr 3
        rw [hS]
        ring

theorem allocate_pieces_ok {p : List Nat} {bufs : List (List Nat)}
    (h : allocate_pieces p = .ok bufs) :
    p.length % SHA_HASH_LEN = 0 ∧ bufs = pieceChunks p := by
  unfold allocate_pieces at h
  split_ifs at h with hmod
  simp only [Except.ok.injEq] at h
  exact ⟨by omega, h.symm⟩

/-- C1: For every byte buffer that parses successfully as a torrent, the
    `info_hash` stored in the resulting MetainfoFile equals the SHA-1
    digest of the canonical bencode re-encoding of the `info`
    sub-dictionary of the decoded root dictionary of the buffer. -/
theorem info_hash_eq_sha1_encode_info (sha1 : List Nat → List Nat) (B : List Nat)
    (mf : MetainfoFile) (hok : MetainfoFile.from_bytes sha1 B = .ok mf) :
    ∃ rd infod,
      decode B defaultOpts = .ok (.dict rd) ∧
      lookupDict rd INFO_KEY = some infod ∧
      mf.info_hash = sha1 (encodeBen (.dict infod)) := by
  obtain ⟨rd, infod, h1, h2, h3, _⟩ := parse_from_bytes_ok_inv sha1 B mf hok
  exact ⟨rd, infod, h1, h2, h3⟩

theorem info_hash_eq_sha1_encode_info_witness :
    MetainfoFile.from_bytes sha1Stub bufSingle = .ok mfSingle ∧
    (∃ rd infod,
      decode bufSingle defaultOpts = .ok (.dict rd) ∧
      lookupDict rd INFO_KEY = some infod ∧
      mfSingle.info_hash = sha1Stub (encodeBen (.dict infod))) :=
  ⟨rfl, info_hash_eq_sha1_encode_info sha1Stub bufSingle mfSingle rfl⟩

/-- C2: For every byte buffer B on which decode succeeds with
    `enforce_sorted_keys = true`, re-encoding the decoded tree reproduces B
    exactly. -/
theorem encode_decode_roundtrip (B : List Nat) (opts : BDecodeOpt) (v : Bencode)
    (henf : opts.enforce_sorted_keys = true) (hdec : decode B opts = .ok v) :
    encodeBen v = B :=
  decode_rt B opts v hdec

theorem encode_decode_roundtrip_witness :
    defaultOpts.enforce_sorted_keys = true ∧
    decode [100, 49, 58, 97, 105, 48, 101, 101] defaultOpts = .ok (.dict [([97], .int 0)]) ∧
    encodeBen (.dict [([97], .int 0)]) = [100, 49, 58, 97, 105, 48, 101, 101] :=
  ⟨rfl, rfl, encode_decode_roundtrip [100, 49, 58, 97, 105, 48, 101, 101] defaultOpts
    (.dict [([97], .int 0)]) rfl rfl⟩

/-- C9: For every byte buffer that fails to decode as bencode,
    `MetainfoFile::from_bytes` returns `CorruptData` with message
    "Specified File Is Not Valid Bencode"; codec-level errors and offsets
    are never surfaced. -/
theorem from_bytes_error_on_invalid_bencode (sha1 : List Nat → List Nat) (B : List Nat)
    (e : BencodeParseError) (h : decode B defaultOpts = .error e) :
    MetainfoFile.from_bytes sha1 B =
      .error ⟨.CorruptData, "Specified File Is Not Valid Bencode"⟩ := by
  unfold MetainfoFile.from_bytes parse_from_bytes
  rw [h]

theorem from_bytes_error_on_invalid_bencode_witness :
    decode [120] defaultOpts = .error (.InvalidByte 0) ∧
    MetainfoFile.from_bytes sha1Stub [120] =
      .error ⟨.CorruptData, "Specified File Is Not Valid Bencode"⟩ :=
  ⟨rfl, from_bytes_error_on_invalid_bencode sha1Stub [120] (.InvalidByte 0) rfl⟩

/-- C10: A torrent whose `pieces` byte string has length zero is accepted
    (all other required fields being valid) and its pieces iterator yields
    zero elements, since 0 is an exact multiple of 20. -/
theorem empty_pieces_torrent_accepted :
    MetainfoFile.from_bytes sha1Stub bufSingle = .ok mfSingle ∧
    mfSingle.info.piecesList = [] :=
  ⟨rfl, rfl⟩

theorem lookupInt_some_iff {d : List (List Nat × Bencode)} {k : List Nat} {n : Int} :
    lookupInt d k = some n ↔ dictLookup d k = some (.int n) := by
  unfold lookupInt
  cases hdl : dictLookup d k with
  | none => simp
  | some v => cases v <;> simp

theorem lookupInt_none_iff {d : List (List Nat × Bencode)} {k : List Nat} :
    lookupInt d k = none ↔ (∀ n : Int, dictLookup d k ≠ some (.int n)) := by
  unfold lookupInt
  cases hdl : dictLookup d k with
  | none => simp
  | some v =>
    cases v with
    | int m =>
      constructor
      · intro h
        exact Option.noConfusion h
      · intro h
        exact absurd rfl (h m)
    | bytes b => simp
    | list l => simp
    | dict dd => simp

theorem parse_private_iff {d : List (List Nat × Bencode)} :
    parse_private d = true ↔ dictLookup d PRIVATE_KEY = some (.int 1) := by
  unfold parse_private
  cases hdl : dictLookup d PRIVATE_KEY with
  | none => simp
  | some v =>
    cases v with
    | int m => simp
    | bytes b => simp
    | list l => simp
    | dict dd => simp

theorem as_single_file_ok {infod : List (List Nat × Bencode)} {f : File}
    (h : File.as_single_file infod = .ok f) :
    ∃ l nm, parse_length infod = .ok l ∧ parse_name infod = .ok nm ∧
      f = ⟨l, [nm], parse_md5sum infod⟩ := by
  simp only [File.as_single_file] at h
  split at h <;> try exact Except.noConfusion h
  rename_i l heql
  split at h <;> try exact Except.noConfusion h
  rename_i nm heqn
  simp only [Except.ok.injEq] at h
  exact ⟨l, nm, heql, heqn, h.symm⟩

/-- Entries of a single-file info dictionary holding 40 bytes of pieces
    (two hashes), in sorted key order. -/
def sampleInfoPieces : List (List Nat × Bencode) :=
  [(LENGTH_KEY, .int 0), (NAME_KEY, .bytes [102]),
   (PIECE_LENGTH_KEY, .int 1), (PIECES_KEY, .bytes (List.replicate 40 7))]

/-- Root entries of the two-piece sample torrent. -/
def rootEntriesPieces : List (List Nat × Bencode) :=
  [(ANNOUNCE_URL_KEY, .bytes [117, 100, 112]), (INFO_KEY, .dict sampleInfoPieces)]

/-- Encoded byte buffer of the two-piece sample torrent. -/
def bufPieces : List Nat := encodeBen (.dict rootEntriesPieces)

/-- The MetainfoFile value parsed from `bufPieces` under `sha1Stub`. -/
def mfPieces : MetainfoFile :=
  ⟨none, [117, 100, 112], none, List.replicate 20 0, none, none,
   ⟨[⟨0, [[102]], none⟩], [List.replicate 20 7, List.replicate 20 7], 1, false, none⟩⟩

/-- C4: For every successfully parsed torrent whose `pieces` byte string
    has length L, the pieces iterator yields exactly L/20 elements, each
    exactly 20 bytes, and the i-th element equals bytes 20i..20i+20 of the
    source `pieces` string, in order. -/
theorem pieces_partitioning (sha1 : List Nat → List Nat) (B : List Nat) (mf : MetainfoFile)
    (rd infod : List (List Nat × Bencode)) (p : List Nat)
    (hok : MetainfoFile.from_bytes sha1 B = .ok mf)
    (hdec : decode B defaultOpts = .ok (.dict rd))
    (hinfo : lookupDict rd INFO_KEY = some infod)
    (hp : lookupBytes infod PIECES_KEY = some p) :
    mf.info.piecesList.length = p.length / SHA_HASH_LEN ∧
    (∀ c ∈ mf.info.piecesList, c.length = SHA_HASH_LEN) ∧
    (∀ i, i < p.length / SHA_HASH_LEN →
      mf.info.piecesList[i]? = some ((p.drop (SHA_HASH_LEN * i)).take SHA_HASH_LEN)) := by
  obtain ⟨rd2, infod2, hdec2, hinfo2, _, hpi⟩ := parse_from_bytes_ok_inv sha1 B mf hok
  rw [hdec] at hdec2
  simp only [Except.ok.injEq, Bencode.dict.injEq] at hdec2
  subst hdec2
  rw [hinfo] at hinfo2
  injection hinfo2 with hinfo2
  subst hinfo2
  obtain ⟨plen, pieces, hpl, hpp, hall, _, _, _⟩ :=
    parse_from_info_dictionary_ok_inv _ _ hpi
  have hp2 := parse_pieces_ok hpp
  rw [hp] at hp2
  injection hp2 with hp2
  subst hp2
  obtain ⟨hmod, hchunks⟩ := allocate_pieces_ok hall
  have hlist : mf.info.piecesList = pieceChunks p := by
    simpa [MetainfoFile.info, InfoDictionary.piecesList] using hchunks
  refine ⟨?_, ?_, ?_⟩
  · rw [hlist]
    exact pieceChunks_length p.length p le_rfl hmod
  · intro c hc
    rw [hlist] at hc
    exact pieceChunks_mem_length p.length p c le_rfl hmod hc
  · intro i hi
    rw [hlist]
    exact pieceChunks_get p.length p i le_rfl hmod hi

theorem pieces_partitioning_witness :
    MetainfoFile.from_bytes sha1Stub bufPieces = .ok mfPieces ∧
    decode bufPieces defaultOpts = .ok (.dict rootEntriesPieces) ∧
    lookupDict rootEntriesPieces INFO_KEY = some sampleInfoPieces ∧
    lookupBytes sampleInfoPieces PIECES_KEY = some (List.replicate 40 7) ∧
    (mfPieces.info.piecesList.length = (List.replicate 40 7 : List Nat).length / SHA_HASH_LEN ∧
     (∀ c ∈ mfPieces.info.piecesList, c.length = SHA_HASH_LEN) ∧
     (∀ i, i < (List.replicate 40 7 : List Nat).length / SHA_HASH_LEN →
       mfPieces.info.piecesList[i]? =
         some (((List.replicate 40 7 : List Nat).drop (SHA_HASH_LEN * i)).take SHA_HASH_LEN))) :=
  ⟨rfl, rfl, rfl, rfl,
   pieces_partitioning sha1Stub bufPieces mfPieces rootEntriesPieces sampleInfoPieces
     (List.replicate 40 7) rfl rfl rfl rfl⟩

/-- Entries of a single-file info dictionary with `private` set to 1, in
    sorted key order. -/
def sampleInfoPrivate : List (List Nat × Bencode) :=
  [(LENGTH_KEY, .int 0), (NAME_KEY, .bytes [102]),
   (PIECE_LENGTH_KEY, .int 1), (PIECES_KEY, .bytes []), (PRIVATE_KEY, .int 1)]

/-- Root entries of the private sample torrent. -/
def rootEntriesPrivate : List (List Nat × Bencode) :=
  [(ANNOUNCE_URL_KEY, .bytes [117, 100, 112]), (INFO_KEY, .dict sampleInfoPrivate)]

/-- Encoded byte buffer of the private sample torrent. -/
def bufPrivate : List Nat := encodeBen (.dict rootEntriesPrivate)

/-- The MetainfoFile value parsed from `bufPrivate` under `sha1Stub`. -/
def mfPrivate : MetainfoFile :=
  ⟨none, [117, 100, 112], none, List.replicate 20 0, none, none,
   ⟨[⟨0, [[102]], none⟩], [], 1, true, none⟩⟩

/-- C7: For every successfully parsed torrent, `is_private` is true if and
    only if the info dictionary contains a `private` key with integer value
    exactly 1; any other value (absent, wrong type, zero, negative) yields
    false rather than an error. -/
theorem is_private_iff_private_one (sha1 : List Nat → List Nat) (B : List Nat)
    (mf : MetainfoFile) (rd infod : List (List Nat × Bencode))
    (hok : MetainfoFile.from_bytes sha1 B = .ok mf)
    (hdec : decode B defaultOpts = .ok (.dict rd))
    (hinfo : lookupDict rd INFO_KEY = some infod) :
    (mf.info.is_private = true ↔ dictLookup infod PRIVATE_KEY = some (.int 1)) := by
  obtain ⟨rd2, infod2, hdec2, hinfo2, _, hpi⟩ := parse_from_bytes_ok_inv sha1 B mf hok
  rw [hdec] at hdec2
  simp only [Except.ok.injEq, Bencode.dict.injEq] at hdec2
  subst hdec2
  rw [hinfo] at hinfo2
  injection hinfo2 with hinfo2
  subst hinfo2
  obtain ⟨_, _, _, _, _, _, hpriv, _⟩ := parse_from_info_dictionary_ok_inv _ _ hpi
  have : mf.info.is_private = parse_private infod := by
    simpa [MetainfoFile.info] using hpriv
  rw [this]
  exact parse_private_iff

theorem is_private_iff_private_one_witness :
    MetainfoFile.from_bytes sha1Stub bufPrivate = .ok mfPrivate ∧
    decode bufPrivate defaultOpts = .ok (.dict rootEntriesPrivate) ∧
    lookupDict rootEntriesPrivate INFO_KEY = some sampleInfoPrivate ∧
    (mfPrivate.info.is_private = true ↔
      dictLookup sampleInfoPrivate PRIVATE_KEY = some (.int 1)) :=
  ⟨rfl, rfl, rfl,
   is_private_iff_private_one sha1Stub bufPrivate mfPrivate rootEntriesPrivate
     sampleInfoPrivate rfl rfl rfl⟩

/-- C8: For every successfully parsed single-file torrent, the
    InfoDictionary contains exactly one File and that File's path is the
    one-element sequence holding the info dictionary's `name` value. -/
theorem single_file_has_one_file_named (sha1 : List Nat → List Nat) (B : List Nat)
    (mf : MetainfoFile) (rd infod : List (List Nat × Bencode)) (nm : List Nat)
    (hok : MetainfoFile.from_bytes sha1 B = .ok mf)
    (hdec : decode B defaultOpts = .ok (.dict rd))
    (hinfo : lookupDict rd INFO_KEY = some infod)
    (hsingle : mf.info.directory = none)
    (hname : lookupBytes infod NAME_KEY = some nm) :
    ∃ l m5, mf.info.filesList = [⟨l, [nm], m5⟩] := by
  obtain ⟨rd2, infod2, hdec2, hinfo2, _, hpi⟩ := parse_from_bytes_ok_inv sha1 B mf hok
  rw [hdec] at hdec2
  simp only [Except.ok.injEq, Bencode.dict.injEq] at hdec2
  subst hdec2
  rw [hinfo] at hinfo2
  injection hinfo2 with hinfo2
  subst hinfo2
  obtain ⟨_, _, _, _, _, _, _, hshape⟩ := parse_from_info_dictionary_ok_inv _ _ hpi
  rcases hshape with ⟨_, _, _, _, _, _, hdir⟩ | ⟨_, file, hfile, hfiles, _⟩
  · exact absurd (by simpa [MetainfoFile.info, InfoDictionary.directory] using hsingle)
      (by simp [hdir])
  · obtain ⟨l, nm2, _, heqn, hf⟩ := as_single_file_ok hfile
    obtain ⟨hlook, _⟩ := parse_name_ok heqn
    rw [hname] at hlook
    injection hlook with hlook
    subst hlook
    refine ⟨l, parse_md5sum infod, ?_⟩
    simp only [MetainfoFile.info, InfoDictionary.filesList]
    rw [hfiles, hf]

theorem single_file_has_one_file_named_witness :
    MetainfoFile.from_bytes sha1Stub bufSingle = .ok mfSingle ∧
    decode bufSingle defaultOpts = .ok (.dict [(ANNOUNCE_URL_KEY, .bytes [117, 100, 112]),
      (INFO_KEY, .dict sampleInfoSingle)]) ∧
    lookupDict [(ANNOUNCE_URL_KEY, Bencode.bytes [117, 100, 112]),
      (INFO_KEY, Bencode.dict sampleInfoSingle)] INFO_KEY = some sampleInfoSingle ∧
    mfSingle.info.directory = none ∧
    lookupBytes sampleInfoSingle NAME_KEY = some [102] ∧
    (∃ l m5, mfSingle.info.filesList = [⟨l, [[102]], m5⟩]) :=
  ⟨rfl, rfl, rfl, rfl, rfl,
   single_file_has_one_file_named sha1Stub bufSingle mfSingle
     [(ANNOUNCE_URL_KEY, .bytes [117, 100, 112]), (INFO_KEY, .dict sampleInfoSingle)]
     sampleInfoSingle [102] rfl rfl rfl rfl rfl⟩

theorem is_multi_file_iff_no_length_int {infod : List (List Nat × Bencode)} :
    is_multi_file_torrent infod = true ↔ lookupInt infod LENGTH_KEY = none := by
  unfold is_multi_file_torrent parse_length
  cases hdl : lookupInt infod LENGTH_KEY with
  | none => simp
  | some n => simp

/-- Entries of an info dictionary whose `length` key holds a byte string
    (not an integer) while `files` and `name` make a valid multi-file
    torrent, in sorted key order. -/
def sampleInfoLenBytes : List (List Nat × Bencode) :=
  [(FILES_KEY, .list [.dict [(LENGTH_KEY, .int 0), (PATH_KEY, .list [.bytes [102]])]]),
   (LENGTH_KEY, .bytes [120]),
   (NAME_KEY, .bytes [100, 105, 114]),
   (PIECE_LENGTH_KEY, .int 1),
   (PIECES_KEY, .bytes [])]

/-- Root entries of the wrong-typed-`length` sample torrent. -/
def rootEntriesLenBytes : List (List Nat × Bencode) :=
  [(ANNOUNCE_URL_KEY, .bytes [117, 100, 112]), (INFO_KEY, .dict sampleInfoLenBytes)]

/-- Encoded byte buffer of the wrong-typed-`length` sample torrent. -/
def bufLenBytes : List Nat := encodeBen (.dict rootEntriesLenBytes)

/-- The MetainfoFile value parsed from `bufLenBytes` under `sha1Stub`: a
    multi-file torrent with directory `"dir"`. -/
def mfLenBytes : MetainfoFile :=
  ⟨none, [117, 100, 112], none, List.replicate 20 0, none, none,
   ⟨[⟨0, [[102]], none⟩], [], 1, false, some [100, 105, 114]⟩⟩

/-- C3 counterexample: an info dictionary that does contain the `length`
    key (with a byte-string value) parses successfully as a multi-file
    torrent (`directory()` is `Some`), refuting "parsed as single-file
    exactly when the key `length` is present at the top of the info
    dictionary". -/
theorem length_key_presence_not_the_switch :
    dictLookup sampleInfoLenBytes LENGTH_KEY = some (.bytes [120]) ∧
    MetainfoFile.from_bytes sha1Stub bufLenBytes = .ok mfLenBytes ∧
    mfLenBytes.info.directory = some [100, 105, 114] :=
  ⟨rfl, rfl, rfl⟩

/-- C3 (amended): For every successfully decoded info dictionary, the
    torrent is parsed as single-file exactly when the key `length` is
    present at the top of the info dictionary with an integer value (so
    that `parse_length` succeeds), and as multi-file exactly when it is
    absent or not an integer; `directory()` returns Some for the
    multi-file shape and None for the single-file shape. -/
theorem single_file_iff_length_int (sha1 : List Nat → List Nat) (B : List Nat)
    (mf : MetainfoFile) (rd infod : List (List Nat × Bencode))
    (hok : MetainfoFile.from_bytes sha1 B = .ok mf)
    (hdec : decode B defaultOpts = .ok (.dict rd))
    (hinfo : lookupDict rd INFO_KEY = some infod) :
    (mf.info.directory = none ↔ ∃ n, dictLookup infod LENGTH_KEY = some (.int n)) := by
  obtain ⟨rd2, infod2, hdec2, hinfo2, _, hpi⟩ := parse_from_bytes_ok_inv sha1 B mf hok
  rw [hdec] at hdec2
  simp only [Except.ok.injEq, Bencode.dict.injEq] at hdec2
  subst hdec2
  rw [hinfo] at hinfo2
  injection hinfo2 with hinfo2
  subst hinfo2
  obtain ⟨_, _, _, _, _, _, _, hshape⟩ := parse_from_info_dictionary_ok_inv _ _ hpi
  rcases hshape with ⟨hmulti, _, _, _, _, _, hdir⟩ | ⟨hsingle, _, _, _, hdir⟩
  · constructor
    · intro hnone
      exact absurd (by simpa [MetainfoFile.info, InfoDictionary.directory] using hnone)
        (by simp [hdir])
    · intro ⟨n, hn⟩
      have hnone := is_multi_file_iff_no_length_int.mp hmulti
      exact absurd hn (lookupInt_none_iff.mp hnone n)
  · constructor
    · intro _
      have hok2 : ¬ lookupInt infod LENGTH_KEY = none := by
        intro hn
        rw [is_multi_file_iff_no_length_int.symm.mp hn] at hsingle
        exact Bool.noConfusion hsingle
      cases hlk : lookupInt infod LENGTH_KEY with
      | none => exact absurd hlk hok2
      | some n => exact ⟨n, lookupInt_some_iff.mp hlk⟩
    · intro _
      simpa [MetainfoFile.info, InfoDictionary.directory] using hdir

theorem single_file_iff_length_int_witness :
    MetainfoFile.from_bytes sha1Stub bufSingle = .ok mfSingle ∧
    decode bufSingle defaultOpts = .ok (.dict [(ANNOUNCE_URL_KEY, .bytes [117, 100, 112]),
      (INFO_KEY, .dict sampleInfoSingle)]) ∧
    lookupDict [(ANNOUNCE_URL_KEY, Bencode.bytes [117, 100, 112]),
      (INFO_KEY, Bencode.dict sampleInfoSingle)] INFO_KEY = some sampleInfoSingle ∧
    (mfSingle.info.directory = none ↔
      ∃ n, dictLookup sampleInfoSingle LENGTH_KEY = some (.int n)) :=
  ⟨rfl, rfl, rfl,
   single_file_iff_length_int sha1Stub bufSingle mfSingle
     [(ANNOUNCE_URL_KEY, .bytes [117, 100, 112]), (INFO_KEY, .dict sampleInfoSingle)]
     sampleInfoSingle rfl rfl rfl⟩

/-- Entries of a single-file info dictionary whose `pieces` string has
    length 1 (not a multiple of 20), in sorted key order. -/
def sampleInfoBadPieces : List (List Nat × Bencode) :=
  [(LENGTH_KEY, .int 0), (NAME_KEY, .bytes [102]),
   (PIECE_LENGTH_KEY, .int 1), (PIECES_KEY, .bytes [0])]

/-- Root entries of the bad-pieces sample torrent. -/
def rootEntriesBadPieces : List (List Nat × Bencode) :=
  [(ANNOUNCE_URL_KEY, .bytes [117, 100, 112]), (INFO_KEY, .dict sampleInfoBadPieces)]

/-- Encoded byte buffer of the bad-pieces sample torrent. -/
def bufBadPieces : List Nat := encodeBen (.dict rootEntriesBadPieces)

/-- C5: For every torrent buffer whose `pieces` byte string has a length
    that is not an exact multiple of 20, `MetainfoFile::from_bytes` never
    returns a MetainfoFile value, and the pieces check itself fails as
    `MissingData` with message "Piece Hash Length Of {len} Is Invalid". -/
theorem bad_pieces_rejected (sha1 : List Nat → List Nat) (B : List Nat)
    (rd infod : List (List Nat × Bencode)) (p : List Nat)
    (hdec : decode B defaultOpts = .ok (.dict rd))
    (hinfo : lookupDict rd INFO_KEY = some infod)
    (hp : lookupBytes infod PIECES_KEY = some p)
    (hmod : p.length % SHA_HASH_LEN ≠ 0) :
    (∀ mf, MetainfoFile.from_bytes sha1 B ≠ .ok mf) ∧
    allocate_pieces p = .error ⟨.MissingData,
      "Piece Hash Length Of " ++ toString p.length ++ " Is Invalid"⟩ := by
  constructor
  · intro mf hok
    obtain ⟨rd2, infod2, hdec2, hinfo2, _, hpi⟩ := parse_from_bytes_ok_inv sha1 B mf hok
    rw [hdec] at hdec2
    simp only [Except.ok.injEq, Bencode.dict.injEq] at hdec2
    subst hdec2
    rw [hinfo] at hinfo2
    injection hinfo2 with hinfo2
    subst hinfo2
    obtain ⟨_, pieces, _, hpp, hall, _⟩ := parse_from_info_dictionary_ok_inv _ _ hpi
    have hp2 := parse_pieces_ok hpp
    rw [hp] at hp2
    injection hp2 with hp2
    subst hp2
    obtain ⟨hmod0, _⟩ := allocate_pieces_ok hall
    exact hmod hmod0
  · unfold allocate_pieces
    rw [if_pos hmod]

theorem bad_pieces_rejected_witness :
    decode bufBadPieces defaultOpts = .ok (.dict rootEntriesBadPieces) ∧
    lookupDict rootEntriesBadPieces INFO_KEY = some sampleInfoBadPieces ∧
    lookupBytes sampleInfoBadPieces PIECES_KEY = some [0] ∧
    ([0] : List Nat).length % SHA_HASH_LEN ≠ 0 ∧
    ((∀ mf, MetainfoFile.from_bytes sha1Stub bufBadPieces ≠ .ok mf) ∧
     allocate_pieces [0] = .error ⟨.MissingData,
       "Piece Hash Length Of " ++ toString ([0] : List Nat).length ++ " Is Invalid"⟩) :=
  ⟨rfl, rfl, rfl, by decide,
   bad_pieces_rejected sha1Stub bufBadPieces rootEntriesBadPieces sampleInfoBadPieces
     [0] rfl rfl rfl (by decide)⟩

theorem parse_path_str_ok {b : Bencode} {c : List Nat} (h : parse_path_str b = .ok c) :
    validPathComponent c = true := by
  cases b with
  | bytes bs =>
    simp only [parse_path_str] at h
    split_ifs at h with hv
    simp only [Except.ok.injEq] at h
    rw [← h]
    exact hv
  | int n => exact Except.noConfusion h
  | list l => exact Except.noConfusion h
  | dict dd => exact Except.noConfusion h

theorem parse_path_list_ok {fd : List (List Nat × Bencode)} {l : List Bencode}
    (h : parse_path_list fd = .ok l) :
    lookupList fd PATH_KEY = some l ∧ l ≠ [] := by
  unfold parse_path_list at h
  cases hlk : lookupList fd PATH_KEY with
  | none =>
    rw [hlk] at h
    exact Except.noConfusion h
  | some ll =>
    rw [hlk] at h
    cases ll with
    | nil => exact Except.noConfusion h
    | cons x xs =>
      simp only [Except.ok.injEq] at h
      rw [← h]
      exact ⟨rfl, by simp⟩

theorem mapPaths_ok : ∀ (l : List Bencode) (ps : List (List Nat)), mapPaths l = .ok ps →
    ps.length = l.length ∧ ∀ c ∈ ps, validPathComponent c = true := by
  intro l
  induction l with
  | nil =>
    intro ps h
    simp only [mapPaths, Except.ok.injEq] at h
    rw [← h]
    simp
  | cons b rest ih =>
    intro ps h
    simp only [mapPaths] at h
    split at h <;> try exact Except.noConfusion h
    rename_i p heqp
    split at h <;> try exact Except.noConfusion h
    rename_i ps1 heqs
    simp only [Except.ok.injEq] at h
    rw [← h]
    obtain ⟨hlen, hall⟩ := ih ps1 heqs
    refine ⟨by simp [hlen], ?_⟩
    intro c hc
    rcases List.mem_cons.mp hc with hc1 | hc2
    · rw [hc1]
      exact parse_path_str_ok heqp
    · exact hall c hc2

theorem as_multi_file_ok {fd : List (List Nat × Bencode)} {f : File}
    (h : File.as_multi_file fd = .ok f) :
    ∃ l pl, parse_length fd = .ok l ∧ parse_path_list fd = .ok pl ∧
      mapPaths pl = .ok f.path := by
  simp only [File.as_multi_file] at h
  split at h <;> try exact Except.noConfusion h
  rename_i l heql
  split at h <;> try exact Except.noConfusion h
  rename_i pl heqpl
  split at h <;> try exact Except.noConfusion h
  rename_i ps heqm
  simp only [Except.ok.injEq] at h
  rw [← h]
  exact ⟨l, pl, heql, heqpl, heqm⟩

theorem validPathComponent_spec {c : List Nat} (h : validPathComponent c = true) :
    utf8Valid c = true ∧ c ≠ [] ∧ c ≠ [46] ∧ c ≠ [46, 46] ∧ PATH_SEP ∉ c := by
  simp only [validPathComponent, Bool.and_eq_true, decide_eq_true_eq,
    Bool.not_eq_true', decide_eq_false_iff_not] at h
  obtain ⟨⟨⟨⟨h1, h2⟩, h3⟩, h4⟩, h5⟩ := h
  exact ⟨h1, h2, h3, h4, h5⟩

theorem validPathComponent_false {bs : List Nat}
    (hbad : utf8Valid bs = false ∨ bs = [] ∨ bs = [46] ∨ bs = [46, 46] ∨ PATH_SEP ∈ bs) :
    validPathComponent bs = false := by
  rcases hbad with h1 | h2 | h3 | h4 | h5
  · simp [validPathComponent, h1]
  · simp [validPathComponent, h2]
  · simp [validPathComponent, h3]
  · simp [validPathComponent, h4]
  · simp [validPathComponent, h5]

/-- Entries of a single-file info dictionary whose `name` is `"."`, in
    sorted key order. -/
def sampleInfoDotName : List (List Nat × Bencode) :=
  [(LENGTH_KEY, .int 0), (NAME_KEY, .bytes [46]),
   (PIECE_LENGTH_KEY, .int 1), (PIECES_KEY, .bytes [])]

/-- Encoded byte buffer of the dot-name sample torrent. -/
def bufDotName : List Nat :=
  encodeBen (.dict [(ANNOUNCE_URL_KEY, .bytes [117, 100, 112]),
    (INFO_KEY, .dict sampleInfoDotName)])

/-- The MetainfoFile value parsed from `bufDotName` under `sha1Stub`: a
    single-file torrent whose only path component is `"."`. -/
def mfDotName : MetainfoFile :=
  ⟨none, [117, 100, 112], none, List.replicate 20 0, none, none,
   ⟨[⟨0, [[46]], none⟩], [], 1, false, none⟩⟩

/-- C6 counterexample: a single-file torrent whose `name` is `"."` parses
    successfully and its single file's path is `["."]`, refuting "any
    input whose path contains a component equal to `.` ... is rejected":
    only multi-file `path` lists are validated, the single-file `name` is
    read as plain UTF-8. -/
theorem dot_name_single_file_accepted :
    MetainfoFile.from_bytes sha1Stub bufDotName = .ok mfDotName ∧
    mfDotName.info.filesList = [⟨0, [[46]], none⟩] :=
  ⟨rfl, rfl⟩

/-- C6 (amended): every path component of a file parsed through the
    multi-file path (`File::as_multi_file`) is a non-empty UTF-8 string
    that is neither `.` nor `..` and contains no path separator, and the
    path list is non-empty; conversely any byte string violating one of
    these conditions is rejected by the path-component parser with
    `CorruptData`.  (Single-file torrents take `path = [name]` with `name`
    only required to be UTF-8.) -/
theorem multi_file_path_components_validated :
    (∀ fd f, File.as_multi_file fd = .ok f →
      f.path ≠ [] ∧ ∀ c ∈ f.path,
        utf8Valid c = true ∧ c ≠ [] ∧ c ≠ [46] ∧ c ≠ [46, 46] ∧ PATH_SEP ∉ c) ∧
    (∀ bs, utf8Valid bs = false ∨ bs = [] ∨ bs = [46] ∨ bs = [46, 46] ∨ PATH_SEP ∈ bs →
      parse_path_str (.bytes bs) = .error ⟨.CorruptData, "Invalid Path Component"⟩) := by
  constructor
  · intro fd f h
    obtain ⟨l, pl, _, hpl, hmp⟩ := as_multi_file_ok h
    obtain ⟨_, hne⟩ := parse_path_list_ok hpl
    obtain ⟨hlen, hall⟩ := mapPaths_ok pl f.path hmp
    constructor
    · intro hnil
      rw [hnil] at hlen
      exact hne (List.eq_nil_of_length_eq_zero hlen.symm)
    · intro c hc
      exact validPathComponent_spec (hall c hc)
  · intro bs hbad
    have hf := validPathComponent_false hbad
    simp only [parse_path_str]
    rw [if_neg (by simp [hf])]

/-- File dictionary of a small multi-file entry: length 0, path `["f"]`. -/
def fdSampleMulti : List (List Nat × Bencode) :=
  [(LENGTH_KEY, .int 0), (PATH_KEY, .list [.bytes [102]])]

theorem multi_file_path_components_validated_witness :
    File.as_multi_file fdSampleMulti = .ok ⟨0, [[102]], none⟩ ∧
    ((⟨0, [[102]], none⟩ : File).path ≠ [] ∧
      ∀ c ∈ (⟨0, [[102]], none⟩ : File).path,
        utf8Valid c = true ∧ c ≠ [] ∧ c ≠ [46] ∧ c ≠ [46, 46] ∧ PATH_SEP ∉ c) ∧
    parse_path_str (.bytes [46]) = .error ⟨.CorruptData, "Invalid Path Component"⟩ :=
  ⟨rfl,
   multi_file_path_components_validated.1 fdSampleMulti ⟨0, [[102]], none⟩ rfl,
   multi_file_path_components_validated.2 [46] (by simp)⟩

